import Mathlib

/-!
Verification of `pseudo_finder.py` (pseudogene candidate detection).

The Python source is shallowly embedded: coordinates are `ℤ`, e-values and
cutoffs are `ℚ` (Python floats modelled as exact rationals), strings are
`String`.  Python's stable `sorted` is modelled by a stable insertion sort
(`pySorted`).  CPython's `is`/`is not` comparisons on small interned values
behave as value (in)equality; the one place where that matters for a claim
(the `item.start is not pseudo.start` dedup filters, which compare object
identity for non-interned ints) is additionally modelled with
provenance-tagged starts further below.
-/

namespace PseudoFinder

/-- `BlastHit` from the source: one blast hit of a region
(`accession`, `slen`, `s_start`, `s_end`, `eval`). -/
structure BlastHit where
  accession : String
  slen : ℤ
  s_start : ℤ
  s_end : ℤ
  eval : ℚ
deriving DecidableEq

/-- `RegionInfo` from the source: all information about a region. -/
structure RegionInfo where
  contig : String
  query : String
  start : ℤ
  «end» : ℤ
  strand : String
  hits : List BlastHit
  note : String
deriving DecidableEq

/-- Insert `a` after every element `b` of an already-built list with `le b a`:
the insertion step of a stable insertion sort (a later-inserted element goes
after earlier elements with an equal key, as in Python's stable `sorted`). -/
def pyInsert (le : α → α → Bool) (a : α) : List α → List α
  | [] => [a]
  | b :: t => if le b a then b :: pyInsert le a t else a :: b :: t

/-- Python's stable `sorted(l, key=...)`, with the key comparison `le`. -/
def pySorted (le : α → α → Bool) (l : List α) : List α :=
  l.foldl (fun acc x => pyInsert le x acc) []

/-- Substring test: models Python's `pat in s`. -/
def strContains (s pat : String) : Bool :=
  (List.range (s.data.length + 1)).any (fun k => List.isPrefixOf pat.data (s.data.drop k))

/-- `number_of_matching_hits` from the source: the number of blast-hit
accessions two regions have in common (`len(set & set)`). -/
def number_of_matching_hits (r1 r2 : RegionInfo) : ℕ :=
  ((r1.hits.map BlastHit.accession).toFinset ∩ (r2.hits.map BlastHit.accession).toFinset).card

/-- `matching_hit_critera` from the source.  `len(...) is not 0` is value
inequality (CPython interns small ints).  `s` sorts the pair by number of
hits, so `s[0]` is the region with the fewer hits. -/
def matching_hit_critera (r1 r2 : RegionInfo) (cutoff : ℚ) : Bool :=
  if r1.hits.length ≠ 0 ∧ r2.hits.length ≠ 0 then
    let s := pySorted (fun a b => decide (a.hits.length ≤ b.hits.length)) [r1, r2]
    decide ((number_of_matching_hits r1 r2 : ℚ) / ((s.getD 0 r1).hits.length : ℚ) ≥ cutoff)
  else
    false

/-- `region_proximity` from the source: distance between two regions,
computed after sorting the pair by start coordinate; negative when they
overlap. -/
def region_proximity (r1 r2 : RegionInfo) : ℤ :=
  let s := pySorted (fun a b => decide (a.start ≤ b.start)) [r1, r2]
  (s.getD 1 r2).start - (s.getD 0 r1).«end»

/-- `compare_regions` from the source: proximity under 1000, matching hit
criteria, and equal strand. -/
def compare_regions (r1 r2 : RegionInfo) (cutoff : ℚ) : Bool :=
  decide (region_proximity r1 r2 < 1000) && matching_hit_critera r1 r2 cutoff
    && decide (r1.strand = r2.strand)

/-- `sort_hits_by_eval` from the source: sorts blast hits by e-value,
lowest first. -/
def sort_hits_by_eval (lobh : List BlastHit) : List BlastHit :=
  pySorted (fun a b => decide (a.eval ≤ b.eval)) lobh

/-- The annotation written by `join_regions`. -/
def fragNote : String :=
  "Note=pseudogene candidate. Reason: Predicted fragmentation of a single gene.;colour=229 204 255"

/-- `join_regions` from the source: merge two regions.  `list(set(r1.hits +
r2.hits))` (NamedTuples compare structurally) is modelled by `List.dedup` of
the concatenation; the set's iteration order is unspecified in Python, and
only set-level facts about the merged hit list are claimed. -/
def join_regions (r1 r2 : RegionInfo) : RegionInfo :=
  { contig := r1.contig
    query := "locus_tag=pseudo_uniqueID"
    start := r1.start
    «end» := r2.«end»
    strand := r1.strand
    hits := sort_hits_by_eval ((r1.hits ++ r2.hits).dedup)
    note := fragNote }

/-- Python's `round(x, 1)` (round half to even) on an exact rational, returned
as an integer number of tenths. -/
def pyRound1Tenths (q : ℚ) : ℤ :=
  let t : ℚ := 10 * q
  let fl : ℤ := ⌊t⌋
  let r : ℚ := t - fl
  if r < 1 / 2 then fl else if 1 / 2 < r then fl + 1 else if fl % 2 = 0 then fl else fl + 1

/-- Renders an integer number of tenths the way Python's `str` renders the
corresponding one-decimal float (e.g. `500 ↦ "50.0"`, `-125 ↦ "-12.5"`). -/
def fmtTenths (n : ℤ) : String :=
  (if n < 0 then "-" else "") ++ toString (n.natAbs / 10) ++ "." ++ toString (n.natAbs % 10)

/-- The annotation written by `convert_region_to_pseudo`, for a percentage
ratio given in tenths. -/
def indivNote (tenths : ℤ) : String :=
  "Note=pseudogene candidate. Reason: ORF is " ++ fmtTenths tenths
    ++ "% of the average length of hits to this gene.;colour=229 204 255"

/-- `convert_region_to_pseudo` from the source: flags a region as a
pseudogene; `ratio` is already a percentage and the note shows
`round(ratio, 1)`. -/
def convert_region_to_pseudo (region : RegionInfo) (ratio : ℚ) : RegionInfo :=
  { region with
    query := "locus_tag=pseudo_uniqueID"
    note := indivNote (pyRound1Tenths ratio) }

/-- The `Ratio` computed by `check_individual_ORFs` for one region: region
length over the average length of the region's database hits. -/
def regionRatio (region : RegionInfo) : ℚ :=
  let ListOfDatabaseLengths := region.hits.map BlastHit.slen
  let AverageDatabaseLength : ℚ :=
    (ListOfDatabaseLengths.sum : ℚ) / (ListOfDatabaseLengths.length : ℚ)
  ((region.«end» - region.start : ℤ) : ℚ) / AverageDatabaseLength

/-- `check_individual_ORFs` from the source (without the `contig_number`
argument, which is only used for progress printing): regions with more than 2
hits whose length ratio is below the cutoff are flagged. -/
def check_individual_ORFs (lori : List RegionInfo) (length_cutoff : ℚ) : List RegionInfo :=
  let InitialList := lori.filter (fun region => decide (2 < region.hits.length))
  InitialList.foldl
    (fun lopg region =>
      if regionRatio region < length_cutoff then
        lopg ++ [convert_region_to_pseudo region (regionRatio region * 100)]
      else lopg)
    []

/-- The substring `check_adjacent_regions` looks for to recognize an
individually-flagged pseudogene. -/
def indivMarker : String := "Note=pseudogene candidate. Reason: ORF"

/-- The substring `check_adjacent_regions` looks for to avoid double-counting
already-fused regions in the `FragmentedOrfs` statistic. -/
def fragMarker : String := "Predicted fragmentation of a single gene"

/-- `'Predicted fragmentation of a single gene' not in region.note`. -/
def notFragP (r : RegionInfo) : Bool := !(strContains r.note fragMarker)

/-- How many of the given regions do not yet carry the fragmentation note
(the `FragmentedOrfs` increment of one fuse). -/
def notFragCount (rs : List RegionInfo) : ℕ :=
  rs.countP notFragP

/-- Default value for (guarded, always in-bounds) list indexing. -/
def dummyRegion : RegionInfo :=
  { contig := "", query := "", start := 0, «end» := 0, strand := "", hits := [], note := "" }

/-- The key comparison of `sorted(..., key=lambda r: r.start)`. -/
def startLe (a b : RegionInfo) : Bool := decide (a.start ≤ b.start)

/-- The `while` loop of `check_adjacent_regions`, with explicit state and
fuel (`none` = fuel exhausted; the termination theorem shows the fuel chosen
by `check_adjacent_regions` always suffices).  State: the working list
`sorted_lori`, the index `i`, the two output lists and the `FragmentedOrfs`
delta.  The source's `item.start is not pseudo.start` filters are modelled as
value inequality (CPython identity on interned ints; see the tagged model
below for the non-interned behaviour). -/
def caLoop (cutoff : ℚ) :
    ℕ → List RegionInfo → ℕ → List RegionInfo → List RegionInfo → ℕ →
    Option (List RegionInfo × List RegionInfo × ℕ)
  | 0, sorted_lori, i, MergedList, IndividualList, frag =>
    if i < sorted_lori.length - 1 then none else some (IndividualList, MergedList, frag)
  | fuel + 1, sorted_lori, i, MergedList, IndividualList, frag =>
    if i < sorted_lori.length - 1 then
      let r0 := sorted_lori.getD i dummyRegion
      let r1 := sorted_lori.getD (i + 1) dummyRegion
      if compare_regions r0 r1 cutoff then
        let pseudo := join_regions r0 r1
        let l' := (sorted_lori.eraseIdx (i + 1)).eraseIdx i
        caLoop cutoff fuel (pySorted startLe (l' ++ [pseudo])) (i - 1)
          ((MergedList.filter (fun item => decide (item.start ≠ pseudo.start))) ++ [pseudo])
          IndividualList (frag + notFragCount [r0, r1])
      else if i < sorted_lori.length - 2 then
        let r2 := sorted_lori.getD (i + 2) dummyRegion
        if compare_regions r0 r2 cutoff then
          let pseudo := join_regions r0 r2
          let l' := ((sorted_lori.eraseIdx (i + 2)).eraseIdx (i + 1)).eraseIdx i
          caLoop cutoff fuel (pySorted startLe (l' ++ [pseudo])) (i - 1)
            ((MergedList.filter (fun item => decide (item.start ≠ pseudo.start))) ++ [pseudo])
            IndividualList (frag + notFragCount [r0, r1, r2])
        else if strContains r0.note indivMarker then
          caLoop cutoff fuel sorted_lori (i + 1) MergedList
            ((IndividualList.filter (fun item => decide (item.start ≠ r0.start))) ++ [r0]) frag
        else
          caLoop cutoff fuel sorted_lori (i + 1) MergedList IndividualList frag
      else if strContains r0.note indivMarker then
        caLoop cutoff fuel sorted_lori (i + 1) MergedList
          ((IndividualList.filter (fun item => decide (item.start ≠ r0.start))) ++ [r0]) frag
      else
        caLoop cutoff fuel sorted_lori (i + 1) MergedList IndividualList frag
    else some (IndividualList, MergedList, frag)

/-- `check_adjacent_regions` from the source (without `contig_number`):
returns `(IndividualList, MergedList, FragmentedOrfs delta)`. -/
def check_adjacent_regions (lori : List RegionInfo) (cutoff : ℚ) :
    Option (List RegionInfo × List RegionInfo × ℕ) :=
  caLoop cutoff (2 * lori.length + 1) (pySorted startLe lori) 0 [] [] 0

/-! ### The blast-report parser (`collect_query_ids`, `parse_blast`)

Lines are modelled without their trailing newline (the newline only ever
feeds the `\s` alternative of the splitting regexes, producing empty fields
that `filter(None, ...)` discards).  `re.match(pat, s)` anchors at the start
only, so `"^" ++ p` is a prefix test; query identifiers are taken to be
regex-literal (no metacharacters), as the locus tags in real reports are.
Exceptions the Python can raise are modelled with `Except PyErr`. -/

/-- The exceptions reachable in `collect_query_ids` / `parse_blast`. -/
inductive PyErr where
  | indexError
  | keyError
  | valueError
deriving DecidableEq

/-- Prefix test on strings (`re.match` with a literal pattern). -/
def strHasPre (p s : String) : Bool := List.isPrefixOf p.data s.data

/-- Character-level splitter for the report regexes
`\s|\[|\]|:|\(|\)` and (for header lines) the extra `(?<=[0-9])-`
alternative: a hyphen is a delimiter only when the previous character is a
digit.  `prev` is the character before the current one. -/
def splitRun (hyphen : Bool) : List Char → Option Char → List Char → List (List Char)
  | [], _, cur => [cur.reverse]
  | c :: rest, prev, cur =>
    if c = ' ' ∨ c = '\t' ∨ c = '[' ∨ c = ']' ∨ c = ':' ∨ c = '(' ∨ c = ')'
        ∨ (hyphen ∧ c = '-' ∧ (prev.map Char.isDigit).getD false = true) then
      cur.reverse :: splitRun hyphen rest (some c) []
    else
      splitRun hyphen rest (some c) (c :: cur)

/-- `list(filter(None, re.split(..., line)))`: the line's non-empty fields. -/
def fieldsOf (hyphen : Bool) (line : String) : List String :=
  ((splitRun hyphen line.data none []).map (fun cs => String.mk cs)).filter
    (fun t => decide (t ≠ ""))

/-- Whether Python's `int(s)` succeeds (optional sign, then digits). -/
def pyIntOk (s : String) : Bool :=
  match s.data with
  | [] => false
  | '-' :: ds => decide (ds ≠ []) && ds.all Char.isDigit
  | ds => ds.all Char.isDigit

/-- The value of a digit string. -/
def digitsVal (ds : List Char) : ℤ :=
  ds.foldl (fun n c => 10 * n + ((c.toNat : ℤ) - 48)) 0

/-- Python's `int(s)` on an input accepted by `pyIntOk`. -/
def pyIntVal (s : String) : ℤ :=
  match s.data with
  | '-' :: ds => -(digitsVal ds)
  | ds => digitsVal ds

/-- Strips one leading sign character. -/
def stripSign : List Char → List Char
  | '-' :: t => t
  | '+' :: t => t
  | cs => cs

/-- Whether a (sign-stripped, lowercased) mantissa is valid: digits with at
most one dot and at least one digit. -/
def mantOk (cs : List Char) : Bool :=
  match cs.span Char.isDigit with
  | (intPart, rest) =>
    match rest with
    | [] => decide (intPart ≠ [])
    | '.' :: frac => (decide (intPart ≠ []) || decide (frac ≠ [])) && frac.all Char.isDigit
    | _ => false

/-- Whether Python's `float(s)` succeeds on the decimal/scientific forms
blast reports use. -/
def pyFloatOk (s : String) : Bool :=
  let cs := (stripSign s.data).map Char.toLower
  match cs.splitOn 'e' with
  | [m] => mantOk m
  | [m, ex] =>
    mantOk m && (decide (stripSign ex ≠ []) && (stripSign ex).all Char.isDigit)
  | _ => false

/-- Python's `float(s)` as an exact rational, on inputs accepted by
`pyFloatOk` (junk elsewhere). -/
def pyFloatVal (s : String) : ℚ :=
  let sgn : ℚ := if s.data.head? = some '-' then -1 else 1
  let cs := (stripSign s.data).map Char.toLower
  let parts := cs.splitOn 'e'
  let mant := parts.getD 0 []
  let ex := parts.getD 1 []
  let ipfp := mant.span Char.isDigit
  let fp := match ipfp.2 with
    | '.' :: f => f
    | _ => []
  let mval : ℚ := (digitsVal ipfp.1 : ℤ) + (digitsVal fp : ℤ) / (10 : ℚ) ^ fp.length
  let e : ℤ := if parts.length ≤ 1 then 0 else
    match ex with
    | '-' :: t => -(digitsVal t)
    | '+' :: t => digitsVal t
    | t => digitsVal t
  sgn * mval * (10 : ℚ) ^ e

/-- `collect_query_ids` from the source: the identifier field of every
`# Query:` line, in order; a header with fewer than 3 fields raises
`IndexError`. -/
def collect_query_ids : List String → Except PyErr (List String)
  | [] => .ok []
  | line :: rest =>
    if strHasPre "# Query:" line then
      match (fieldsOf false line).get? 2 with
      | none => .error .indexError
      | some q => (collect_query_ids rest).map (fun l => q :: l)
    else collect_query_ids rest

/-- One entry of `QueryDict`: the `'hits'` key is created only when the first
hit row for the query is appended, hence the `Option`. -/
structure QRec where
  contig : String
  query : String
  start : ℤ
  «end» : ℤ
  strand : String
  hits : Option (List BlastHit)
deriving DecidableEq

/-- `QueryDict` as an insertion-ordered association list with unique keys
(Python 3.7+ dict semantics). -/
abbrev Dict := List (String × QRec)

/-- Dictionary lookup. -/
def dictGet (d : Dict) (k : String) : Option QRec :=
  (d.find? (fun p => decide (p.1 = k))).map Prod.snd

/-- Dictionary store: an existing key keeps its insertion position. -/
def dictSet (d : Dict) (k : String) (v : QRec) : Dict :=
  if d.any (fun p => decide (p.1 = k)) then
    d.map (fun p => if p.1 = k then (k, v) else p)
  else d ++ [(k, v)]

/-- Dictionary delete. -/
def dictDel (d : Dict) (k : String) : Dict :=
  d.filter (fun p => decide (p.1 ≠ k))

/-- The parser's per-line mutable state: `queryIndex` and `QueryDict`. -/
structure ParseState where
  queryIndex : ℕ
  dict : Dict
deriving DecidableEq

/-- The `BlastHit(...)` constructed for one hit row (source lines 355-359):
the stored `slen` is `int(FieldsInLine[10]) * 3` — unconditionally scaled,
whatever the report's type.  Missing fields raise `IndexError`, unparsable
numbers `ValueError`. -/
def mkHit (fields : List String) : Except PyErr BlastHit :=
  match fields.get? 1 with
  | none => .error .indexError
  | some acc =>
    match fields.get? 10 with
    | none => .error .indexError
    | some slenRaw =>
      if pyIntOk slenRaw then
        match fields.get? 8 with
        | none => .error .indexError
        | some ssRaw =>
          if pyIntOk ssRaw then
            match fields.get? 9 with
            | none => .error .indexError
            | some seRaw =>
              if pyIntOk seRaw then
                match fields.get? 11 with
                | none => .error .indexError
                | some evRaw =>
                  if pyFloatOk evRaw then
                    .ok { accession := acc
                          slen := pyIntVal slenRaw * 3
                          s_start := pyIntVal ssRaw
                          s_end := pyIntVal seRaw
                          eval := pyFloatVal evRaw }
                  else .error .valueError
              else .error .valueError
          else .error .valueError
      else .error .valueError

/-- One iteration of `parse_blast`'s line loop.  The `if`/`elif` chain is
followed, for the same line, by the `try:` end-of-hits check, which reads
`lines[line_number - 1]`: at line 0 Python's negative indexing silently
yields the *last* line of the file.  An `IndexError` inside that `try` is
caught and ignored; the `queries[queryIndex]` in the `if` chain's patterns is
unprotected. -/
def parseStep (queries lines : List String) (line_number : ℕ) (st : ParseState) :
    Except PyErr ParseState :=
  let line := lines.getD line_number ""
  match queries.get? st.queryIndex with
  | none => .error .indexError
  | some q =>
    let afterBranches : Except PyErr ParseState :=
      if strHasPre ("# Query: " ++ q) line then
        let fields := fieldsOf true line
        match fields.get? 3, fields.get? 4, fields.get? 5, fields.get? 6 with
        | some contig, some startRaw, some endRaw, some strand =>
          if pyIntOk startRaw && pyIntOk endRaw then
            let qrec : QRec :=
              { contig := contig, query := q, start := pyIntVal startRaw
                «end» := pyIntVal endRaw, strand := strand, hits := none }
            .ok { st with dict := dictSet st.dict q qrec }
          else .error .valueError
        | _, _, _, _ => .error .indexError
      else if strHasPre "# 0 hits found" line then
        match dictGet st.dict q with
        | none => .error .keyError
        | some _ => .ok { queryIndex := st.queryIndex + 1, dict := dictDel st.dict q }
      else if strHasPre q line then
        match dictGet st.dict q with
        | none => .error .keyError
        | some rec' =>
          match mkHit (fieldsOf false line) with
          | .error e => .error e
          | .ok hit =>
            let qrec : QRec := { rec' with hits := some ((rec'.hits.getD []) ++ [hit]) }
            .ok { st with dict := dictSet st.dict q qrec }
      else .ok st
    match afterBranches with
    | .error e => .error e
    | .ok st' =>
      match queries.get? st'.queryIndex with
      | none => .ok st'
      | some q' =>
        let prev :=
          if line_number = 0 then lines.getD (lines.length - 1) ""
          else lines.getD (line_number - 1) ""
        if strHasPre "#" line && strHasPre q' prev then
          .ok { st' with queryIndex := st'.queryIndex + 1 }
        else .ok st'

/-- `get_intergenic_query_range` from the source: absolute coordinates of an
intergenic region from the local hit coordinates. -/
def get_intergenic_query_range (lobh : List BlastHit) (start_position : ℤ) : ℤ × ℤ :=
  let startList := lobh.map BlastHit.s_start
  let endList := lobh.map BlastHit.s_end
  (start_position + (startList.min?.getD 0) + 1, start_position + (endList.max?.getD 0) + 1)

/-- The final `for key in QueryDict` loop of `parse_blast`: a record whose
`'hits'` key was never created raises `KeyError` there.  `blast_format is
"BlastP"` compares interned literals, i.e. value equality. -/
def buildRegions (blast_format : String) : Dict → Except PyErr (List RegionInfo)
  | [] => .ok []
  | (_, r) :: rest =>
    if blast_format = "BlastP" then
      match r.hits with
      | none => .error .keyError
      | some hits =>
        (buildRegions blast_format rest).map
          (fun tl =>
            { contig := r.contig, query := r.query, start := r.start, «end» := r.«end»
              strand := r.strand, hits := hits, note := "" } :: tl)
    else if blast_format = "BlastX" then
      match r.hits with
      | none => .error .keyError
      | some hits =>
        let range := get_intergenic_query_range hits r.start
        (buildRegions blast_format rest).map
          (fun tl =>
            { contig := r.contig, query := r.query, start := range.1, «end» := range.2
              strand := r.strand, hits := hits, note := "" } :: tl)
    else buildRegions blast_format rest

/-- `parse_blast` from the source, on the report's lines. -/
def parse_blast (lines : List String) (blast_format : String) :
    Except PyErr (List RegionInfo) :=
  match collect_query_ids lines with
  | .error e => .error e
  | .ok queries =>
    match (List.range lines.length).foldlM
        (fun st n => parseStep queries lines n st) ⟨0, []⟩ with
    | .error e => .error e
    | .ok st => buildRegions blast_format st.dict

/-! ### Identity-tagged model of `check_adjacent_regions`

The source deduplicates its two output lists with
`item.start is not pseudo.start`: CPython object identity on `int`s.  For
start coordinates outside the interned range (-5..256) — i.e. any realistic
genomic coordinate — two equal starts of distinct provenance are distinct
objects and the filter removes nothing.  To exhibit this, the model below
carries each start as a pair `(value, object id)`: sorting and proximity use
the value, the dedup filters compare the object id, and `join_regions`
passes `r1.start` through unchanged (the fused tuple holds the same int
object).  Everything else is as in the value model above. -/

/-- A region whose start coordinate carries a CPython object id. -/
structure RegionInfoTag where
  contig : String
  query : String
  start : ℤ × ℕ
  «end» : ℤ
  strand : String
  hits : List BlastHit
  note : String
deriving DecidableEq

/-- `number_of_matching_hits` on tagged regions. -/
def number_of_matching_hitsT (r1 r2 : RegionInfoTag) : ℕ :=
  ((r1.hits.map BlastHit.accession).toFinset ∩ (r2.hits.map BlastHit.accession).toFinset).card

/-- `matching_hit_critera` on tagged regions. -/
def matching_hit_criteraT (r1 r2 : RegionInfoTag) (cutoff : ℚ) : Bool :=
  if r1.hits.length ≠ 0 ∧ r2.hits.length ≠ 0 then
    let s := pySorted (fun a b => decide (a.hits.length ≤ b.hits.length)) [r1, r2]
    decide ((number_of_matching_hitsT r1 r2 : ℚ) / ((s.getD 0 r1).hits.length : ℚ) ≥ cutoff)
  else
    false

/-- `region_proximity` on tagged regions (start value only). -/
def region_proximityT (r1 r2 : RegionInfoTag) : ℤ :=
  let s := pySorted (fun a b => decide (a.start.1 ≤ b.start.1)) [r1, r2]
  (s.getD 1 r2).start.1 - (s.getD 0 r1).«end»

/-- `compare_regions` on tagged regions. -/
def compare_regionsT (r1 r2 : RegionInfoTag) (cutoff : ℚ) : Bool :=
  decide (region_proximityT r1 r2 < 1000) && matching_hit_criteraT r1 r2 cutoff
    && decide (r1.strand = r2.strand)

/-- `join_regions` on tagged regions: the fused region's start is `r1.start`
itself — value and object id. -/
def join_regionsT (r1 r2 : RegionInfoTag) : RegionInfoTag :=
  { contig := r1.contig
    query := "locus_tag=pseudo_uniqueID"
    start := r1.start
    «end» := r2.«end»
    strand := r1.strand
    hits := sort_hits_by_eval ((r1.hits ++ r2.hits).dedup)
    note := fragNote }

/-- Indexing default for the tagged model. -/
def dummyRegionT : RegionInfoTag :=
  { contig := "", query := "", start := (0, 0), «end» := 0, strand := "", hits := [], note := "" }

/-- Sort key comparison on tagged regions (start value). -/
def startLeT (a b : RegionInfoTag) : Bool := decide (a.start.1 ≤ b.start.1)

/-- The `check_adjacent_regions` loop on tagged regions.  The only
difference from `caLoop`: the dedup filters translate
`item.start is not pseudo.start` as inequality of *object ids*, the CPython
behaviour for non-interned ints. -/
def caLoopT (cutoff : ℚ) :
    ℕ → List RegionInfoTag → ℕ → List RegionInfoTag → List RegionInfoTag → ℕ →
    Option (List RegionInfoTag × List RegionInfoTag × ℕ)
  | 0, sorted_lori, i, MergedList, IndividualList, frag =>
    if i < sorted_lori.length - 1 then none else some (IndividualList, MergedList, frag)
  | fuel + 1, sorted_lori, i, MergedList, IndividualList, frag =>
    if i < sorted_lori.length - 1 then
      let r0 := sorted_lori.getD i dummyRegionT
      let r1 := sorted_lori.getD (i + 1) dummyRegionT
      if compare_regionsT r0 r1 cutoff then
        let pseudo := join_regionsT r0 r1
        let l' := (sorted_lori.eraseIdx (i + 1)).eraseIdx i
        caLoopT cutoff fuel (pySorted startLeT (l' ++ [pseudo])) (i - 1)
          ((MergedList.filter (fun item => decide (item.start.2 ≠ pseudo.start.2))) ++ [pseudo])
          IndividualList (frag + (List.countP (fun r => !(strContains r.note fragMarker)) [r0, r1]))
      else if i < sorted_lori.length - 2 then
        let r2 := sorted_lori.getD (i + 2) dummyRegionT
        if compare_regionsT r0 r2 cutoff then
          let pseudo := join_regionsT r0 r2
          let l' := ((sorted_lori.eraseIdx (i + 2)).eraseIdx (i + 1)).eraseIdx i
          caLoopT cutoff fuel (pySorted startLeT (l' ++ [pseudo])) (i - 1)
            ((MergedList.filter (fun item => decide (item.start.2 ≠ pseudo.start.2))) ++ [pseudo])
            IndividualList
            (frag + (List.countP (fun r => !(strContains r.note fragMarker)) [r0, r1, r2]))
        else if strContains r0.note indivMarker then
          caLoopT cutoff fuel sorted_lori (i + 1) MergedList
            ((IndividualList.filter (fun item => decide (item.start.2 ≠ r0.start.2))) ++ [r0]) frag
        else
          caLoopT cutoff fuel sorted_lori (i + 1) MergedList IndividualList frag
      else if strContains r0.note indivMarker then
        caLoopT cutoff fuel sorted_lori (i + 1) MergedList
          ((IndividualList.filter (fun item => decide (item.start.2 ≠ r0.start.2))) ++ [r0]) frag
      else
        caLoopT cutoff fuel sorted_lori (i + 1) MergedList IndividualList frag
    else some (IndividualList, MergedList, frag)

/-- `check_adjacent_regions` on tagged regions. -/
def check_adjacent_regionsT (lori : List RegionInfoTag) (cutoff : ℚ) :
    Option (List RegionInfoTag × List RegionInfoTag × ℕ) :=
  caLoopT cutoff (2 * lori.length + 1) (pySorted startLeT lori) 0 [] [] 0

/-! ### Concrete inputs used by the counterexamples and witnesses -/

/-- The note `convert_region_to_pseudo` writes for a 50.0% ratio, as a
literal. -/
def noteORFdemo : String :=
  "Note=pseudogene candidate. Reason: ORF is 50.0% of the average length of hits to this gene.;colour=229 204 255"

/-- Two individually-flagged regions with the same start *value* 5000 but
distinct int objects (ids 1 and 2: e.g. both parsed from text), plus a far
third region so the loop examines both. -/
def rT1 : RegionInfoTag :=
  { contig := "c1", query := "Q1", start := (5000, 1), «end» := 5300, strand := "+"
    hits := [], note := noteORFdemo }

/-- See `rT1`. -/
def rT2 : RegionInfoTag :=
  { contig := "c1", query := "Q2", start := (5000, 2), «end» := 5400, strand := "+"
    hits := [], note := noteORFdemo }

/-- See `rT1`. -/
def rT3 : RegionInfoTag :=
  { contig := "c1", query := "Q3", start := (99999, 3), «end» := 100500, strand := "+"
    hits := [], note := "" }

/-- A report whose first line is a plain comment and whose *last* line is a
data row beginning with the first query's identifier, so that
`lines[line_number - 1]` at line 0 (Python `lines[-1]`) matches; the line-1
header then arrives when the expected query is already `Q2`. -/
def demoLines : List String :=
  [ "# BLASTP 2.6.0+"
  , "# Query: Q1 c1 [100:200](+)"
  , "# Query: Q2 c2 [300:400](+)"
  , "Q2 sp|B1|YYY 50.0 10 0 0 1 30 5 8 100 0.5 40"
  , "Q1 sp|A1|XXX 50.0 10 0 0 1 30 5 8 100 0.5 40" ]

/-- A minimal well-formed blastp (protein query, not translated) report:
one query, one hit row whose `slen` field is 100. -/
def c6lines : List String :=
  [ "# Query: Q1 c1 [100:200](+)"
  , "Q1 sp|A1|XXX 50.0 10 0 0 1 30 5 8 100 0.5 40"
  , "# BLAST processed 1 queries" ]

/-- The fields of the hit row of `c6lines`. -/
def demoRowFields : List String :=
  fieldsOf false "Q1 sp|A1|XXX 50.0 10 0 0 1 30 5 8 100 0.5 40"

/-- The hit `mkHit` builds from `demoRowFields`. -/
def demoHit : BlastHit :=
  { accession := "sp|A1|XXX", slen := 300, s_start := 5, s_end := 8, eval := pyFloatVal "0.5" }

/-- A region with 3 hits of target length 300 each and region length 150
(ratio 50%), for the individual-classifier witness. -/
def c7demo : RegionInfo :=
  { contig := "c1", query := "Q1", start := 0, «end» := 150, strand := "+"
    hits :=
      [ { accession := "a1", slen := 300, s_start := 1, s_end := 50, eval := 1 }
      , { accession := "a2", slen := 300, s_start := 1, s_end := 50, eval := 2 }
      , { accession := "a3", slen := 300, s_start := 1, s_end := 50, eval := 3 } ]
    note := "" }

/-- An individually-annotated region for the single-region witness. -/
def rIndiv : RegionInfo :=
  { contig := "c1", query := "Q1", start := 400, «end» := 700, strand := "+"
    hits := [], note := noteORFdemo }

/-- Two plain regions for the `join_regions` witness. -/
def rA : RegionInfo :=
  { contig := "c1", query := "QA", start := 0, «end» := 90, strand := "+"
    hits := [ { accession := "a1", slen := 300, s_start := 1, s_end := 30, eval := 2 } ]
    note := "" }

/-- See `rA`. -/
def rB : RegionInfo :=
  { contig := "c1", query := "QB", start := 120, «end» := 200, strand := "+"
    hits := [ { accession := "a1", slen := 300, s_start := 31, s_end := 60, eval := 1 } ]
    note := "" }

/-! ### Lemmas about the stable sort -/

theorem pyInsert_perm (le : α → α → Bool) (a : α) :
    ∀ l : List α, List.Perm (pyInsert le a l) (a :: l)
  | [] => List.Perm.refl _
  | b :: t => by
    unfold pyInsert
    by_cases h : le b a = true
    · simp only [h, if_true]
      exact ((pyInsert_perm le a t).cons b).trans (List.Perm.swap a b t)
    · simp [h]

theorem pySorted_go_perm (le : α → α → Bool) :
    ∀ (l acc : List α),
      List.Perm (l.foldl (fun acc x => pyInsert le x acc) acc) (acc ++ l)
  | [], acc => by simp
  | x :: t, acc => by
    simp only [List.foldl_cons]
    refine (pySorted_go_perm le t (pyInsert le x acc)).trans ?_
    refine (List.Perm.append_right t (pyInsert_perm le x acc)).trans ?_
    exact List.perm_middle.symm

theorem pySorted_perm (le : α → α → Bool) (l : List α) : List.Perm (pySorted le l) l := by
  simpa using pySorted_go_perm le l []

theorem mem_pyInsert {le : α → α → Bool} {a x : α} {l : List α} :
    x ∈ pyInsert le a l ↔ x = a ∨ x ∈ l := by
  rw [(pyInsert_perm le a l).mem_iff]
  exact List.mem_cons

theorem pyInsert_pairwise (le : α → α → Bool)
    (htot : ∀ a b, le a b = true ∨ le b a = true)
    (htrans : ∀ a b c, le a b = true → le b c = true → le a c = true) (a : α) :
    ∀ l : List α, l.Pairwise (fun x y => le x y = true) →
      (pyInsert le a l).Pairwise (fun x y => le x y = true)
  | [], _ => by simp [pyInsert]
  | b :: t, h => by
    rw [List.pairwise_cons] at h
    obtain ⟨hb, ht⟩ := h
    unfold pyInsert
    by_cases hba : le b a = true
    · rw [if_pos hba, List.pairwise_cons]
      refine ⟨fun x hx => ?_, pyInsert_pairwise le htot htrans a t ht⟩
      rcases mem_pyInsert.1 hx with rfl | hx
      · exact hba
      · exact hb x hx
    · rw [if_neg hba, List.pairwise_cons]
      refine ⟨fun x hx => ?_, List.pairwise_cons.2 ⟨hb, ht⟩⟩
      have hab : le a b = true := (htot a b).resolve_right hba
      rcases List.mem_cons.1 hx with rfl | hx
      · exact hab
      · exact htrans a b x hab (hb x hx)

theorem pySorted_go_pairwise (le : α → α → Bool)
    (htot : ∀ a b, le a b = true ∨ le b a = true)
    (htrans : ∀ a b c, le a b = true → le b c = true → le a c = true) :
    ∀ (l acc : List α), acc.Pairwise (fun x y => le x y = true) →
      (l.foldl (fun acc x => pyInsert le x acc) acc).Pairwise (fun x y => le x y = true)
  | [], _, h => h
  | x :: t, acc, h =>
    pySorted_go_pairwise le htot htrans t (pyInsert le x acc)
      (pyInsert_pairwise le htot htrans x acc h)

theorem pySorted_pairwise (le : α → α → Bool)
    (htot : ∀ a b, le a b = true ∨ le b a = true)
    (htrans : ∀ a b c, le a b = true → le b c = true → le a c = true) (l : List α) :
    (pySorted le l).Pairwise (fun x y => le x y = true) :=
  pySorted_go_pairwise le htot htrans l [] List.Pairwise.nil

theorem pySorted_pair (le : α → α → Bool) (a b : α) :
    pySorted le [a, b] = if le a b then [a, b] else [b, a] := by
  by_cases h : le a b = true <;> simp [pySorted, pyInsert, h]

theorem length_pySorted (le : α → α → Bool) (l : List α) :
    (pySorted le l).length = l.length :=
  (pySorted_perm le l).length_eq

theorem countP_pySorted (le : α → α → Bool) (p : α → Bool) (l : List α) :
    List.countP p (pySorted le l) = List.countP p l :=
  (pySorted_perm le l).countP_eq p

/-! ### The pure merge predicates: claims C1, C2, C9 -/

theorem region_proximity_eq (r1 r2 : RegionInfo) :
    region_proximity r1 r2 =
      if r2.start < r1.start then r1.start - r2.«end» else r2.start - r1.«end» := by
  unfold region_proximity
  rw [pySorted_pair]
  by_cases h : r1.start ≤ r2.start
  · simp [h, not_lt.2 h, List.getD]
  · simp [h, lt_of_not_le h, not_le.1 h, List.getD]

theorem number_of_matching_hits_comm (r1 r2 : RegionInfo) :
    number_of_matching_hits r1 r2 = number_of_matching_hits r2 r1 := by
  unfold number_of_matching_hits
  rw [Finset.inter_comm]

theorem matching_hit_critera_iff (r1 r2 : RegionInfo) (cutoff : ℚ) :
    matching_hit_critera r1 r2 cutoff = true ↔
      r1.hits ≠ [] ∧ r2.hits ≠ [] ∧
        cutoff ≤ (number_of_matching_hits r1 r2 : ℚ) /
          ((min r1.hits.length r2.hits.length : ℕ) : ℚ) := by
  unfold matching_hit_critera
  rw [pySorted_pair]
  by_cases h1 : r1.hits.length = 0
  · simp [h1, List.length_eq_zero.1 h1]
  · by_cases h2 : r2.hits.length = 0
    · simp [h2, List.length_eq_zero.1 h2]
    · have e1 : r1.hits ≠ [] := fun e => h1 (by simp [e])
      have e2 : r2.hits ≠ [] := fun e => h2 (by simp [e])
      by_cases hle : r1.hits.length ≤ r2.hits.length
      · simp only [h1, h2, ne_eq, not_false_eq_true, and_self, if_true, hle, decide_eq_true_eq,
          List.getD, ge_iff_le]
        rw [min_eq_left hle]
        simp [e1, e2]
      · simp only [h1, h2, ne_eq, not_false_eq_true, and_self, if_true, hle, decide_eq_true_eq,
          List.getD, ge_iff_le]
        rw [min_eq_right (le_of_lt (not_le.1 hle))]
        simp [e1, e2, hle]

/-- C1: `compare_regions(r1, r2, h)` is `True` iff the gap between the
earlier region's end and the later region's start (after sorting the pair by
start) is strictly below 1000 (overlap allowed), the strands are equal, both
regions have at least one hit, and the shared-accession count over the
smaller hit count reaches the cutoff; in particular a region with an empty
hit list is never mergeable. -/
theorem compare_regions_characterization (r1 r2 : RegionInfo) (cutoff : ℚ) :
    compare_regions r1 r2 cutoff = true ↔
      (if r2.start < r1.start then r1.start - r2.«end» else r2.start - r1.«end») < 1000 ∧
        r1.strand = r2.strand ∧ r1.hits ≠ [] ∧ r2.hits ≠ [] ∧
        cutoff ≤ (((r1.hits.map BlastHit.accession).toFinset ∩
            (r2.hits.map BlastHit.accession).toFinset).card : ℚ) /
          ((min r1.hits.length r2.hits.length : ℕ) : ℚ) := by
  unfold compare_regions
  rw [Bool.and_eq_true, Bool.and_eq_true, decide_eq_true_eq, decide_eq_true_eq,
    matching_hit_critera_iff, ← region_proximity_eq]
  unfold number_of_matching_hits
  tauto

/-- C9: the shared-hit criterion is symmetric in its two regions. -/
theorem matching_hit_critera_symm (r1 r2 : RegionInfo) (cutoff : ℚ) :
    matching_hit_critera r1 r2 cutoff = matching_hit_critera r2 r1 cutoff := by
  rw [Bool.eq_iff_iff, matching_hit_critera_iff, matching_hit_critera_iff,
    number_of_matching_hits_comm, min_comm]
  tauto

/-- C2: for an earlier region `r1` and a later region `r2`, the fused region
spans `r1.start`..`r2.end`, inherits `r1`'s strand and contig, uses the
placeholder query, carries the fragmentation note, and its hit list is the
deduplicated union of both hit lists sorted ascending by e-value. -/
theorem join_regions_spec (r1 r2 : RegionInfo) (_hle : r1.start ≤ r2.start) :
    (join_regions r1 r2).start = r1.start ∧ (join_regions r1 r2).«end» = r2.«end» ∧
      (join_regions r1 r2).strand = r1.strand ∧ (join_regions r1 r2).contig = r1.contig ∧
      (join_regions r1 r2).query = "locus_tag=pseudo_uniqueID" ∧
      strContains (join_regions r1 r2).note fragMarker = true ∧
      (join_regions r1 r2).hits.Nodup ∧
      (join_regions r1 r2).hits.toFinset = r1.hits.toFinset ∪ r2.hits.toFinset ∧
      (join_regions r1 r2).hits.Pairwise (fun a b => a.eval ≤ b.eval) := by
  refine ⟨rfl, rfl, rfl, rfl, rfl, (by decide : strContains fragNote fragMarker = true), ?_, ?_, ?_⟩
  · exact ((pySorted_perm _ _).nodup_iff).2 (List.nodup_dedup _)
  · ext a
    simp [join_regions, sort_hits_by_eval, List.mem_toFinset, (pySorted_perm _ _).mem_iff,
      List.mem_dedup, List.mem_append]
  · have h := pySorted_pairwise (fun a b : BlastHit => decide (a.eval ≤ b.eval))
      (fun a b => by rcases le_total a.eval b.eval with h | h <;> simp [h])
      (fun a b c hab hbc =>
        decide_eq_true (le_trans (of_decide_eq_true hab) (of_decide_eq_true hbc)))
      ((r1.hits ++ r2.hits).dedup)
    exact h.imp fun hxy => of_decide_eq_true hxy

/-- Concrete instance of `join_regions_spec` at `rA`, `rB`. -/
theorem join_regions_spec_witness :
    (join_regions rA rB).start = rA.start ∧ (join_regions rA rB).«end» = rB.«end» ∧
      (join_regions rA rB).strand = rA.strand ∧ (join_regions rA rB).contig = rA.contig ∧
      (join_regions rA rB).query = "locus_tag=pseudo_uniqueID" ∧
      strContains (join_regions rA rB).note fragMarker = true ∧
      (join_regions rA rB).hits.Nodup ∧
      (join_regions rA rB).hits.toFinset = rA.hits.toFinset ∪ rB.hits.toFinset ∧
      (join_regions rA rB).hits.Pairwise (fun a b => a.eval ≤ b.eval) :=
  join_regions_spec rA rB (by decide)

/-! ### The individual-region classifier: claim C7 -/

theorem mem_foldl_ite_append {α β : Type} (P : α → Prop) [DecidablePred P] (f : α → β) :
    ∀ (l : List α) (acc : List β) (p : β),
      (p ∈ l.foldl (fun lopg r => if P r then lopg ++ [f r] else lopg) acc ↔
        p ∈ acc ∨ ∃ r ∈ l, P r ∧ p = f r)
  | [], acc, p => by simp
  | a :: t, acc, p => by
    simp only [List.foldl_cons]
    by_cases h : P a
    · rw [if_pos h, mem_foldl_ite_append P f t (acc ++ [f a]) p]
      simp only [List.mem_append, List.mem_cons, List.not_mem_nil, or_false]
      constructor
      · rintro ((hacc | rfl) | ⟨r, hr, hP, rfl⟩)
        · exact Or.inl hacc
        · exact Or.inr ⟨a, Or.inl rfl, h, rfl⟩
        · exact Or.inr ⟨r, Or.inr hr, hP, rfl⟩
      · rintro (hacc | ⟨r, (rfl | hr), hP, rfl⟩)
        · exact Or.inl (Or.inl hacc)
        · exact Or.inl (Or.inr rfl)
        · exact Or.inr ⟨r, hr, hP, rfl⟩
    · rw [if_neg h, mem_foldl_ite_append P f t acc p]
      simp only [List.mem_cons]
      constructor
      · rintro (hacc | ⟨r, hr, hP, rfl⟩)
        · exact Or.inl hacc
        · exact Or.inr ⟨r, Or.inr hr, hP, rfl⟩
      · rintro (hacc | ⟨r, (rfl | hr), hP, rfl⟩)
        · exact Or.inl hacc
        · exact (h hP).elim
        · exact Or.inr ⟨r, hr, hP, rfl⟩

theorem regionRatio_eq (r : RegionInfo) :
    regionRatio r = ((r.«end» - r.start : ℤ) : ℚ) /
      (((r.hits.map BlastHit.slen).sum : ℚ) / ((r.hits.map BlastHit.slen).length : ℚ)) := rfl

/-- C7: a region is flagged by `check_individual_ORFs` iff it has more than
2 hits and its length over the average hit target length is below the
cutoff; the flagged output is `convert_region_to_pseudo` of the region at
the percentage ratio (whose note shows the percentage rounded to one
decimal); a region with exactly 2 hits is never flagged.  The hypotheses
mirror the claim's cutoff range `c ∈ (0,1]` and restrict to inputs with a
positive average hit length (on a region with more than 2 hits and total
hit length 0, the Python raises `ZeroDivisionError` instead of returning,
so the characterization is only claimed away from that corner). -/
theorem check_individual_ORFs_spec (lori : List RegionInfo) (c : ℚ)
    (_hc0 : 0 < c) (_hc1 : c ≤ 1)
    (_hpos : ∀ r ∈ lori, 2 < r.hits.length →
      0 < ((r.hits.map BlastHit.slen).sum : ℚ) / (r.hits.length : ℚ)) :
    (∀ p, p ∈ check_individual_ORFs lori c ↔
        ∃ r ∈ lori, 2 < r.hits.length ∧
          ((r.«end» - r.start : ℤ) : ℚ) /
              (((r.hits.map BlastHit.slen).sum : ℚ) /
                ((r.hits.map BlastHit.slen).length : ℚ)) < c ∧
          p = convert_region_to_pseudo r (regionRatio r * 100)) ∧
      (∀ r : RegionInfo, r.hits.length = 2 → check_individual_ORFs [r] c = []) := by
  constructor
  · intro p
    unfold check_individual_ORFs
    rw [mem_foldl_ite_append (fun r => regionRatio r < c)
      (fun r => convert_region_to_pseudo r (regionRatio r * 100))]
    simp only [List.mem_filter, decide_eq_true_eq, List.not_mem_nil, false_or]
    constructor
    · rintro ⟨r, ⟨hr, h2⟩, hlt, rfl⟩
      exact ⟨r, hr, h2, by rw [← regionRatio_eq]; exact hlt, rfl⟩
    · rintro ⟨r, hr, h2, hlt, rfl⟩
      exact ⟨r, ⟨hr, h2⟩, by rw [regionRatio_eq]; exact hlt, rfl⟩
  · intro r h2
    unfold check_individual_ORFs
    simp [h2]

/-- Concrete instance of `check_individual_ORFs_spec`: one region of length
150 with 3 hits of target length 300 (ratio 50%), cutoff 0.6. -/
theorem check_individual_ORFs_spec_witness :
    (∀ p, p ∈ check_individual_ORFs [c7demo] (3/5) ↔
        ∃ r ∈ [c7demo], 2 < r.hits.length ∧
          ((r.«end» - r.start : ℤ) : ℚ) /
              (((r.hits.map BlastHit.slen).sum : ℚ) /
                ((r.hits.map BlastHit.slen).length : ℚ)) < 3/5 ∧
          p = convert_region_to_pseudo r (regionRatio r * 100)) ∧
      (∀ r : RegionInfo, r.hits.length = 2 → check_individual_ORFs [r] (3/5) = []) :=
  check_individual_ORFs_spec [c7demo] (3/5) (by norm_num) (by norm_num)
    (by
      intro r hr _
      simp only [List.mem_singleton] at hr
      subst hr
      norm_num [c7demo])

/-! ### Termination and statistics of the merge engine: claims C8, C10 -/

theorem countP_eraseIdx {α : Type} (p : α → Bool) (d : α) :
    ∀ (l : List α) (j : ℕ), j < l.length →
      List.countP p (l.eraseIdx j) + (if p (l.getD j d) then 1 else 0) = List.countP p l
  | [], j, h => absurd h (by simp)
  | a :: t, 0, _ => by
    simp [List.countP_cons, List.getD]
  | a :: t, j + 1, h => by
    have ih := countP_eraseIdx p d t j (by simpa using h)
    simp only [List.eraseIdx_cons_succ, List.countP_cons, List.getD_cons_succ]
    omega

theorem getD_eraseIdx_lt {α : Type} (d : α) :
    ∀ (l : List α) (j k : ℕ), k < j → (l.eraseIdx j).getD k d = l.getD k d
  | [], _, _, _ => by simp
  | _ :: _, 0, k, h => absurd h (by omega)
  | _ :: _, j + 1, 0, _ => by simp [List.eraseIdx_cons_succ, List.getD]
  | _ :: t, j + 1, k + 1, h => by
    simp only [List.eraseIdx_cons_succ, List.getD_cons_succ]
    exact getD_eraseIdx_lt d t j k (by omega)

theorem notFragP_join (a b : RegionInfo) : notFragP (join_regions a b) = false := by
  have h : strContains fragNote fragMarker = true := by decide
  simp [notFragP, join_regions, h]

theorem caLoop_some (cutoff : ℚ) :
    ∀ (fuel : ℕ) (l : List RegionInfo) (i : ℕ) (ml il : List RegionInfo) (f : ℕ),
      2 * l.length ≤ fuel + i →
      ∃ out, caLoop cutoff fuel l i ml il f = some out ∧
        out.2.2 ≤ f + List.countP notFragP l
  | 0, l, i, ml, il, f => by
    intro hf
    rw [caLoop]
    have hg : ¬ i < l.length - 1 := by omega
    rw [if_neg hg]
    exact ⟨(il, ml, f), rfl, Nat.le_add_right _ _⟩
  | fuel + 1, l, i, ml, il, f => by
    intro hf
    simp only [caLoop]
    by_cases hg : i < l.length - 1
    case neg =>
      rw [if_neg hg]
      exact ⟨(il, ml, f), rfl, Nat.le_add_right _ _⟩
    case pos =>
    rw [if_pos hg]
    have hi1 : i + 1 < l.length := by omega
    have hlen' : (l.eraseIdx (i + 1)).length = l.length - 1 := by
      rw [List.length_eraseIdx]
      simp [hi1]
    by_cases hc1 :
        compare_regions (l.getD i dummyRegion) (l.getD (i + 1) dummyRegion) cutoff = true
    · rw [if_pos hc1]
      have hlen'' : ((l.eraseIdx (i + 1)).eraseIdx i).length = l.length - 2 := by
        rw [List.length_eraseIdx, hlen']
        have : i < l.length - 1 := hg
        simp [this]
        omega
      have hlen2 :
          (pySorted startLe ((l.eraseIdx (i + 1)).eraseIdx i ++
            [join_regions (l.getD i dummyRegion) (l.getD (i + 1) dummyRegion)])).length
            = l.length - 1 := by
        rw [length_pySorted, List.length_append, hlen'']
        simp
        omega
      obtain ⟨out, heq, hb⟩ := caLoop_some cutoff fuel
        (pySorted startLe ((l.eraseIdx (i + 1)).eraseIdx i ++
          [join_regions (l.getD i dummyRegion) (l.getD (i + 1) dummyRegion)]))
        (i - 1)
        ((ml.filter (fun item => decide (item.start ≠
          (join_regions (l.getD i dummyRegion) (l.getD (i + 1) dummyRegion)).start))) ++
          [join_regions (l.getD i dummyRegion) (l.getD (i + 1) dummyRegion)])
        il
        (f + notFragCount [l.getD i dummyRegion, l.getD (i + 1) dummyRegion])
        (by rw [hlen2]; omega)
      refine ⟨out, heq, ?_⟩
      have hcp : List.countP notFragP (pySorted startLe ((l.eraseIdx (i + 1)).eraseIdx i ++
          [join_regions (l.getD i dummyRegion) (l.getD (i + 1) dummyRegion)]))
          = List.countP notFragP ((l.eraseIdx (i + 1)).eraseIdx i) := by
        rw [countP_pySorted, List.countP_append]
        simp [List.countP_cons, notFragP_join]
      rw [hcp] at hb
      have e1 := countP_eraseIdx notFragP dummyRegion l (i + 1) hi1
      have e0 := countP_eraseIdx notFragP dummyRegion (l.eraseIdx (i + 1)) i (by rw [hlen']; omega)
      rw [getD_eraseIdx_lt dummyRegion l (i + 1) i (by omega)] at e0
      have hnc : notFragCount [l.getD i dummyRegion, l.getD (i + 1) dummyRegion]
          = (if notFragP (l.getD i dummyRegion) then 1 else 0)
            + (if notFragP (l.getD (i + 1) dummyRegion) then 1 else 0) := by
        simp only [notFragCount, List.countP_cons, List.countP_nil]
        omega
      rw [hnc] at hb
      omega
    · rw [if_neg hc1]
      by_cases hg2 : i < l.length - 2
      · rw [if_pos hg2]
        have hi2 : i + 2 < l.length := by omega
        have h2len' : (l.eraseIdx (i + 2)).length = l.length - 1 := by
          rw [List.length_eraseIdx]
          simp [hi2]
        have h2len'' : ((l.eraseIdx (i + 2)).eraseIdx (i + 1)).length = l.length - 2 := by
          rw [List.length_eraseIdx, h2len']
          have : i + 1 < l.length - 1 := by omega
          simp [this]
          omega
        have h2len''' : (((l.eraseIdx (i + 2)).eraseIdx (i + 1)).eraseIdx i).length
            = l.length - 3 := by
          rw [List.length_eraseIdx, h2len'']
          have : i < l.length - 2 := hg2
          simp [this]
          omega
        by_cases hc2 :
            compare_regions (l.getD i dummyRegion) (l.getD (i + 2) dummyRegion) cutoff = true
        · rw [if_pos hc2]
          have hlen2 :
              (pySorted startLe ((((l.eraseIdx (i + 2)).eraseIdx (i + 1)).eraseIdx i) ++
                [join_regions (l.getD i dummyRegion) (l.getD (i + 2) dummyRegion)])).length
                = l.length - 2 := by
            rw [length_pySorted, List.length_append, h2len''']
            simp
            omega
          obtain ⟨out, heq, hb⟩ := caLoop_some cutoff fuel
            (pySorted startLe ((((l.eraseIdx (i + 2)).eraseIdx (i + 1)).eraseIdx i) ++
              [join_regions (l.getD i dummyRegion) (l.getD (i + 2) dummyRegion)]))
            (i - 1)
            ((ml.filter (fun item => decide (item.start ≠
              (join_regions (l.getD i dummyRegion) (l.getD (i + 2) dummyRegion)).start))) ++
              [join_regions (l.getD i dummyRegion) (l.getD (i + 2) dummyRegion)])
            il
            (f + notFragCount [l.getD i dummyRegion, l.getD (i + 1) dummyRegion,
              l.getD (i + 2) dummyRegion])
            (by rw [hlen2]; omega)
          refine ⟨out, heq, ?_⟩
          have hcp : List.countP notFragP
              (pySorted startLe ((((l.eraseIdx (i + 2)).eraseIdx (i + 1)).eraseIdx i) ++
                [join_regions (l.getD i dummyRegion) (l.getD (i + 2) dummyRegion)]))
              = List.countP notFragP (((l.eraseIdx (i + 2)).eraseIdx (i + 1)).eraseIdx i) := by
            rw [countP_pySorted, List.countP_append]
            simp [List.countP_cons, notFragP_join]
          rw [hcp] at hb
          have e2 := countP_eraseIdx notFragP dummyRegion l (i + 2) hi2
          have e1 := countP_eraseIdx notFragP dummyRegion (l.eraseIdx (i + 2)) (i + 1)
            (by rw [h2len']; omega)
          rw [getD_eraseIdx_lt dummyRegion l (i + 2) (i + 1) (by omega)] at e1
          have e0 := countP_eraseIdx notFragP dummyRegion
            ((l.eraseIdx (i + 2)).eraseIdx (i + 1)) i (by rw [h2len'']; omega)
          rw [getD_eraseIdx_lt dummyRegion (l.eraseIdx (i + 2)) (i + 1) i (by omega),
            getD_eraseIdx_lt dummyRegion l (i + 2) i (by omega)] at e0
          have hnc : notFragCount [l.getD i dummyRegion, l.getD (i + 1) dummyRegion,
              l.getD (i + 2) dummyRegion]
              = (if notFragP (l.getD i dummyRegion) then 1 else 0)
                + (if notFragP (l.getD (i + 1) dummyRegion) then 1 else 0)
                + (if notFragP (l.getD (i + 2) dummyRegion) then 1 else 0) := by
            simp only [notFragCount, List.countP_cons, List.countP_nil]
            omega
          rw [hnc] at hb
          omega
        · rw [if_neg hc2]
          by_cases hind : strContains (l.getD i dummyRegion).note indivMarker = true
          · rw [if_pos hind]
            obtain ⟨out, heq, hb⟩ := caLoop_some cutoff fuel l (i + 1) ml
              ((il.filter (fun item => decide (item.start ≠ (l.getD i dummyRegion).start))) ++
                [l.getD i dummyRegion]) f (by omega)
            exact ⟨out, heq, hb⟩
          · rw [if_neg hind]
            obtain ⟨out, heq, hb⟩ := caLoop_some cutoff fuel l (i + 1) ml il f (by omega)
            exact ⟨out, heq, hb⟩
      · rw [if_neg hg2]
        by_cases hind : strContains (l.getD i dummyRegion).note indivMarker = true
        · rw [if_pos hind]
          obtain ⟨out, heq, hb⟩ := caLoop_some cutoff fuel l (i + 1) ml
            ((il.filter (fun item => decide (item.start ≠ (l.getD i dummyRegion).start))) ++
              [l.getD i dummyRegion]) f (by omega)
          exact ⟨out, heq, hb⟩
        · rw [if_neg hind]
          obtain ⟨out, heq, hb⟩ := caLoop_some cutoff fuel l (i + 1) ml il f (by omega)
          exact ⟨out, heq, hb⟩

/-- C8: for every finite region list the merge loop terminates (the fuel
`check_adjacent_regions` allots always suffices, because every successful
fuse strictly shrinks the working list while the index rewinds by at most
one), and the `FragmentedOrfs` delta — the number of original regions
consumed into fused candidates — never exceeds the original region count. -/
theorem check_adjacent_regions_terminates (lori : List RegionInfo) (cutoff : ℚ) :
    ∃ out, check_adjacent_regions lori cutoff = some out ∧ out.2.2 ≤ lori.length := by
  obtain ⟨out, heq, hb⟩ := caLoop_some cutoff (2 * lori.length + 1)
    (pySorted startLe lori) 0 [] [] 0 (by rw [length_pySorted]; omega)
  refine ⟨out, heq, ?_⟩
  calc out.2.2 ≤ 0 + List.countP notFragP (pySorted startLe lori) := hb
    _ = List.countP notFragP lori := by rw [Nat.zero_add, countP_pySorted]
    _ ≤ lori.length := List.countP_le_length _

/-- C10: a one-region input yields two empty output lists — the sole region
is never recorded as a standalone candidate even when its note carries the
individual-pseudogene annotation — and, in general, the loop returns as soon
as the index reaches the working list's length minus one, so the last
(maximum-start) element of the sorted working list is never examined by the
standalone-recording step. -/
theorem check_adjacent_regions_single :
    (∀ (r : RegionInfo) (cutoff : ℚ), check_adjacent_regions [r] cutoff = some ([], [], 0)) ∧
      ∀ (cutoff : ℚ) (fuel : ℕ) (l : List RegionInfo) (i : ℕ) (ml il : List RegionInfo) (f : ℕ),
        l.length - 1 ≤ i → caLoop cutoff fuel l i ml il f = some (il, ml, f) := by
  constructor
  · intro r cutoff
    rfl
  · intro cutoff fuel l i ml il f h
    have hg : ¬ i < l.length - 1 := by omega
    cases fuel with
    | zero => rw [caLoop, if_neg hg]
    | succ fuel => rw [caLoop, if_neg hg]

/-- Concrete instance of `check_adjacent_regions_single` at a region already
carrying an individual-pseudogene note. -/
theorem check_adjacent_regions_single_witness :
    check_adjacent_regions [rIndiv] (3/10) = some ([], [], 0) ∧
      caLoop (3/10) 5 [rIndiv] 0 [] [] 0 = some ([], [], 0) :=
  ⟨check_adjacent_regions_single.1 rIndiv (3/10),
    check_adjacent_regions_single.2 (3/10) 5 [rIndiv] 0 [] [] 0 (by decide)⟩

/-! ### Output-list dedup under CPython identity: claim C3 -/

/-- C3 (evaluation of the identity-faithful model at the failing input):
two individually-annotated regions whose starts have the equal value 5000
but are distinct int objects (ids 1 and 2) both end up in the
standalone-candidates output — `item.start is not pseudo.start` compares
object identity, so the dedup-by-start the spec describes does not happen
and the output holds two entries with equal start coordinate. -/
theorem individualList_dedup_identity_failure :
    check_adjacent_regionsT [rT1, rT2, rT3] (3/10) = some ([rT1, rT2], [], 0) ∧
      rT1.start.1 = rT2.start.1 ∧ rT1.start.2 ≠ rT2.start.2 :=
  ⟨rfl, rfl, by decide⟩

/-! ### Parser behaviour on mismatched headers and at line 0: claims C4, C5, C6 -/

theorem strHasPre_query_not_zero (l : String) (h : strHasPre "# Query:" l = true) :
    strHasPre "# 0 hits found" l = false := by
  unfold strHasPre at h ⊢
  have hd : ("# Query:" : String).data = ['#', ' ', 'Q', 'u', 'e', 'r', 'y', ':'] := rfl
  have hd2 : ("# 0 hits found" : String).data
      = ['#', ' ', '0', ' ', 'h', 'i', 't', 's', ' ', 'f', 'o', 'u', 'n', 'd'] := rfl
  rw [hd] at h
  rw [hd2]
  rcases hl : l.data with _ | ⟨c1, _ | ⟨c2, _ | ⟨c3, t⟩⟩⟩ <;> rw [hl] at h
  · simp [List.isPrefixOf] at h
  · simp [List.isPrefixOf] at h
  · simp [List.isPrefixOf] at h
  · simp only [List.isPrefixOf, Bool.and_eq_true, beq_iff_eq] at h
    obtain ⟨h1, h2, h3, -⟩ := h
    subst h3
    have hne : (('0' : Char) == 'Q') = false := by decide
    simp [List.isPrefixOf, hne]

/-- C4 counterexample: in `demoLines` the queries are `[Q1, Q2]`; after line
0 the expected index is already 1 (expecting `Q2`), so the line-1 header —
which carries `Q1` — mismatches the expected identifier.  Yet the parser
raises nothing (there is no `FormatError` anywhere in the code) and returns
normally, with `Q1`'s data silently absent from the output. -/
theorem parse_blast_mismatched_header_silent :
    collect_query_ids demoLines = Except.ok ["Q1", "Q2"] ∧
      ((List.range 1).foldlM (fun st n => parseStep ["Q1", "Q2"] demoLines n st)
        (⟨0, []⟩ : ParseState)).map ParseState.queryIndex = Except.ok 1 ∧
      strHasPre "# Query:" (demoLines.getD 1 "") = true ∧
      (fieldsOf false (demoLines.getD 1 "")).get? 2 = some "Q1" ∧
      (parse_blast demoLines "BlastP").map (fun rs => rs.map RegionInfo.query)
        = Except.ok ["Q2"] :=
  ⟨rfl, rfl, rfl, rfl, rfl⟩

/-- C4 amended: a `# Query:` header line that does not carry the expected
identifier (and whose text does not itself start with that identifier)
raises no error and is silently ignored — the coordinate dictionary is
unchanged; at most the query index advances by one when the line doubles as
an end-of-hits marker. -/
theorem parseStep_mismatched_header_skips (queries lines : List String) (n : ℕ)
    (st : ParseState) (q : String)
    (hq : queries.get? st.queryIndex = some q)
    (hdr : strHasPre "# Query:" (lines.getD n "") = true)
    (hmis : strHasPre ("# Query: " ++ q) (lines.getD n "") = false)
    (hnq : strHasPre q (lines.getD n "") = false) :
    ∃ st', parseStep queries lines n st = Except.ok st' ∧ st'.dict = st.dict ∧
      (st'.queryIndex = st.queryIndex ∨ st'.queryIndex = st.queryIndex + 1) := by
  rw [List.getD_eq_getElem?_getD] at hdr hmis hnq
  unfold parseStep
  simp only [hq]
  rw [if_neg (by simp [hmis])]
  rw [if_neg (by simp [strHasPre_query_not_zero _ hdr])]
  rw [if_neg (by simp [hnq])]
  simp only [hq]
  by_cases hc : (strHasPre "#" (lines.getD n "") &&
      strHasPre q (if n = 0 then lines.getD (lines.length - 1) ""
        else lines.getD (n - 1) "")) = true
  · rw [if_pos hc]
    exact ⟨_, rfl, rfl, Or.inr rfl⟩
  · rw [if_neg hc]
    exact ⟨st, rfl, rfl, Or.inl rfl⟩

/-- Concrete instance of `parseStep_mismatched_header_skips` at line 1 of
`demoLines` (header carries `Q1`, expected `Q2`). -/
theorem parseStep_mismatched_header_skips_witness :
    ∃ st', parseStep ["Q1", "Q2"] demoLines 1 ⟨1, []⟩ = Except.ok st' ∧
      st'.dict = (⟨1, []⟩ : ParseState).dict ∧
      (st'.queryIndex = (⟨1, []⟩ : ParseState).queryIndex ∨
        st'.queryIndex = (⟨1, []⟩ : ParseState).queryIndex + 1) :=
  parseStep_mismatched_header_skips ["Q1", "Q2"] demoLines 1 ⟨1, []⟩ "Q2" rfl rfl rfl rfl

/-- C5 (evaluation at the failing input): the first line of `demoLines` is a
plain comment — neither a header nor a `0 hits found` line — yet processing
it advances the query index from 0 to 1: `lines[line_number - 1]` at line 0
reads the file's *last* line (Python negative indexing), which here starts
with the first query's identifier, so the very first line is treated as an
end-of-hits marker, contrary to the claim and to the source's own comment
that this case would be stopped by an `IndexError`. -/
theorem parseStep_first_line_end_of_hits :
    demoLines.getD 0 "" = "# BLASTP 2.6.0+" ∧
      strHasPre "# Query:" (demoLines.getD 0 "") = false ∧
      strHasPre "# 0 hits found" (demoLines.getD 0 "") = false ∧
      parseStep ["Q1", "Q2"] demoLines 0 ⟨0, []⟩ = Except.ok ⟨1, []⟩ :=
  ⟨rfl, rfl, rfl, rfl⟩

/-- C6 counterexample: `c6lines` is a blastp report — protein query, *not*
a translated search — whose hit row reports `slen = 100`, yet the parsed
hit stores target length 300: the scaling by 3 is unconditional, not
restricted to translated reports. -/
theorem parse_blast_slen_scaled_blastp :
    (fieldsOf false (c6lines.getD 1 "")).get? 10 = some "100" ∧
      (parse_blast c6lines "BlastP").map (fun rs => rs.map (fun r => r.hits.map BlastHit.slen))
        = Except.ok [[300]] :=
  ⟨rfl, rfl⟩

/-- C6 amended: every hit the parser constructs stores
`int(FieldsInLine[10]) * 3` as its target length, whatever the report's
type — `mkHit` does not even receive the `blast_format` argument. -/
theorem mkHit_slen_scaled (fields : List String) (h : BlastHit)
    (hok : mkHit fields = Except.ok h) :
    ∃ raw, fields.get? 10 = some raw ∧ h.slen = pyIntVal raw * 3 := by
  unfold mkHit at hok
  cases e1 : fields.get? 1 with
  | none => simp only [e1] at hok; exact Except.noConfusion hok
  | some acc =>
  simp only [e1] at hok
  cases e10 : fields.get? 10 with
  | none => simp only [e10] at hok; exact Except.noConfusion hok
  | some slenRaw =>
  simp only [e10] at hok
  by_cases i10 : pyIntOk slenRaw = true
  · rw [if_pos i10] at hok
    cases e8 : fields.get? 8 with
    | none => simp only [e8] at hok; exact Except.noConfusion hok
    | some ssRaw =>
    simp only [e8] at hok
    by_cases i8 : pyIntOk ssRaw = true
    · rw [if_pos i8] at hok
      cases e9 : fields.get? 9 with
      | none => simp only [e9] at hok; exact Except.noConfusion hok
      | some seRaw =>
      simp only [e9] at hok
      by_cases i9 : pyIntOk seRaw = true
      · rw [if_pos i9] at hok
        cases e11 : fields.get? 11 with
        | none => simp only [e11] at hok; exact Except.noConfusion hok
        | some evRaw =>
        simp only [e11] at hok
        by_cases i11 : pyFloatOk evRaw = true
        · rw [if_pos i11] at hok
          have := Except.ok.inj hok
          subst this
          exact ⟨slenRaw, rfl, rfl⟩
        · rw [if_neg i11] at hok; exact absurd hok (by simp)
      · rw [if_neg i9] at hok; exact absurd hok (by simp)
    · rw [if_neg i8] at hok; exact absurd hok (by simp)
  · rw [if_neg i10] at hok; exact absurd hok (by simp)

/-- Concrete instance of `mkHit_slen_scaled` at the hit row of `c6lines`. -/
theorem mkHit_slen_scaled_witness :
    ∃ raw, demoRowFields.get? 10 = some raw ∧ demoHit.slen = pyIntVal raw * 3 :=
  mkHit_slen_scaled demoRowFields demoHit rfl

end PseudoFinder
